import Mathlib

/-!
Verification development for the `ics2tsv` converter.

The program is a single-pass batch converter: parse an iCalendar file,
filter events by exact summary match, build one output row per event
(name, date `YYYY/MM/DD`, start `HH:MM`, end `HH:MM`, duration `HH:MM`),
sort rows by date then start time with `sort.Slice`, and serialize them
with `encoding/csv` using a configurable delimiter.

The definitions below are shallow embeddings of the program's own code
(`main.go`) together with the parts of the Go standard library it leans
on for the verified properties: `time.Parse` specialized to the layout
`"20060102T150405"`, `sort.Slice`'s pdqsort, and `encoding/csv`'s
writer.  Strings are modelled as lists of unicode scalar values; all the
compared and parsed strings in this program are ASCII, where Go's
byte-wise operations coincide with the character-wise ones used here.
-/

/-- Go `'0' <= c && c <= '9'` (time package `isDigit`). -/
def isDigitC (c : Char) : Bool := '0' ≤ c && c ≤ '9'

/-- Go `int(c - '0')`: numeric value of a digit character. -/
def digC (c : Char) : Nat := c.toNat - '0'.toNat

/-- Go `'0' + digit`: the character for one decimal digit. -/
def dChar (d : Nat) : Char := Char.ofNat (48 + d)

/-- Go `<` on single characters (byte/rune comparison). -/
def charLtB (a b : Char) : Bool := a < b

/-- Go `<` on strings: lexicographic comparison.  On the ASCII strings this
program compares, Go's byte-wise order equals this character-wise order. -/
def strLtB : List Char → List Char → Bool
  | _, [] => false
  | [], _ :: _ => true
  | a :: as, b :: bs => charLtB a b || (a == b && strLtB as bs)

/-- Go `math/bits.Len` on a nonnegative word: bits needed to represent `n`. -/
def bitsLen (n : Nat) : Nat := if n = 0 then 0 else Nat.log2 n + 1

/-- The calendar fields of a Go `time.Time` produced by `time.Parse` with
layout `"20060102T150405"` (always in the layout's implicit reference,
i.e. UTC; no timezone conversion happens). -/
structure GoTime where
  year : Nat
  month : Nat
  day : Nat
  hour : Nat
  min : Nat
  sec : Nat
  nsec : Nat
deriving DecidableEq, Repr, Inhabited

/-- Go `isLeap` from the time package. -/
def isLeap (y : Nat) : Bool := y % 4 == 0 && (y % 100 != 0 || y % 400 == 0)

/-- Go `daysIn(m, year)`: number of days of month `m` in year `y`. -/
def daysIn (m y : Nat) : Nat :=
  if m == 2 then (if isLeap y then 29 else 28)
  else if m == 4 || m == 6 || m == 9 || m == 11 then 30
  else 31

/-- Go time package `getnum(s, fixed)`: reads a one- or two-digit number;
a second digit is required when `fixed` is true. -/
def getnum (fixed : Bool) : List Char → Option (Nat × List Char)
  | [] => none
  | [c1] => if isDigitC c1 && !fixed then some (digC c1, []) else none
  | c1 :: c2 :: rest =>
    if isDigitC c1 then
      if isDigitC c2 then some (digC c1 * 10 + digC c2, rest)
      else if fixed then none else some (digC c1, c2 :: rest)
    else none

/-- Go's `stdLongYear` parsing step: four characters, all digits
(the first is checked by `isDigit`, the rest by `atoi`). -/
def parseYear : List Char → Option (Nat × List Char)
  | c1 :: c2 :: c3 :: c4 :: rest =>
    if isDigitC c1 && isDigitC c2 && isDigitC c3 && isDigitC c4 then
      some (digC c1 * 1000 + digC c2 * 100 + digC c3 * 10 + digC c4, rest)
    else none
  | _ => none

/-- Longest digit run at the front of a character list. -/
def takeDigits : List Char → List Char × List Char
  | [] => ([], [])
  | c :: cs =>
    if isDigitC c then
      let p := takeDigits cs
      (c :: p.1, p.2)
    else ([], c :: cs)

/-- Value of a digit string (Go `atoi` on an all-digit string). -/
def digitsVal (l : List Char) : Nat := l.foldl (fun acc c => acc * 10 + digC c) 0

/-- Go's fractional-second special case at the `stdZeroSecond` chunk: even
though the layout `"20060102T150405"` has no fractional second, `parse`
accepts `'.'` or `','` followed by digits right after the seconds, taking at
most nine digits of precision (`parseNanoseconds` with `nbytes` capped at 10)
and consuming the whole digit run.  Returns the nanosecond value and the
unconsumed remainder; when no fraction is present the input is unchanged. -/
def parseFrac : List Char → Nat × List Char
  | c1 :: c2 :: rest =>
    if (c1 == '.' || c1 == ',') && isDigitC c2 then
      let p := takeDigits (c2 :: rest)
      let used := p.1.take 9
      (digitsVal used * 10 ^ (9 - used.length), p.2)
    else (0, c1 :: c2 :: rest)
  | l => (0, l)

/-- Go `time.Parse("20060102T150405", s)` on the character list of `s`:
year, zero-padded month and day, literal `'T'`, hour (`getnum` non-fixed),
zero-padded minute and second, the fractional-second special case, the
"extra text" check, and the range checks `parse` performs (month 1–12,
hour below 24, minute and second below 60, day within `daysIn`).  Go
records a range violation and keeps scanning before failing; since every
such run fails either way, the range checks here abort directly, which
yields the same success set and the same parsed value. -/
def parseTimeChars (l : List Char) : Option GoTime :=
  match parseYear l with
  | none => none
  | some (year, v1) =>
    match getnum true v1 with
    | none => none
    | some (month, v2) =>
      if month < 1 ∨ 12 < month then none
      else
        match getnum true v2 with
        | none => none
        | some (day, v3) =>
          match v3 with
          | [] => none
          | c :: v4 =>
            if c = 'T' then
              match getnum false v4 with
              | none => none
              | some (hour, v5) =>
                if 24 ≤ hour then none
                else
                  match getnum true v5 with
                  | none => none
                  | some (minute, v6) =>
                    if 60 ≤ minute then none
                    else
                      match getnum true v6 with
                      | none => none
                      | some (sec, v7) =>
                        if 60 ≤ sec then none
                        else
                          if (parseFrac v7).2 = ([] : List Char) then
                            if day < 1 ∨ daysIn month year < day then none
                            else some ⟨year, month, day, hour, minute, sec, (parseFrac v7).1⟩
                          else none
            else none

/-- The program's `parseTime`: `time.Parse("20060102T150405", timeString)`,
returning the parsed time or propagating the parse error (`none`). -/
def parseTime (s : String) : Option GoTime := parseTimeChars s.data

/-- Two-digit zero-padded decimal (Go `Format` chunks `"01"`, `"02"`, `"15"`,
`"04"`: `appendInt(..., 2)`).  Width 2 is a minimum: larger values print in
full, exactly as in Go. -/
def pad2 (n : Nat) : List Char :=
  if n < 100 then [dChar (n / 10), dChar (n % 10)] else (Nat.repr n).data

/-- Four-digit zero-padded decimal (Go `Format` chunk `"2006"`). -/
def pad4 (n : Nat) : List Char :=
  if n < 10000 then
    [dChar (n / 1000), dChar (n / 100 % 10), dChar (n / 10 % 10), dChar (n % 10)]
  else (Nat.repr n).data

/-- Go `start.Format("2006/01/02")`: the row's `date` field. -/
def fmtDate (t : GoTime) : String :=
  ⟨pad4 t.year ++ '/' :: pad2 t.month ++ '/' :: pad2 t.day⟩

/-- Go `t.Format("15:04")`: the row's `startTime`/`endTime` fields. -/
def fmtHM (t : GoTime) : String :=
  ⟨pad2 t.hour ++ ':' :: pad2 t.min⟩

/-- Cumulative days before month `m` in a non-leap year (Go `daysBefore`). -/
def daysBeforeMonth (m : Nat) : Nat :=
  match m with
  | 1 => 0 | 2 => 31 | 3 => 59 | 4 => 90 | 5 => 120 | 6 => 151
  | 7 => 181 | 8 => 212 | 9 => 243 | 10 => 273 | 11 => 304 | 12 => 334
  | _ => 365

/-- Leap years among `0, 1, ..., y - 1` in the proleptic Gregorian calendar
(year 0 counts as a leap year). -/
def leapsBeforeYear (y : Nat) : Nat := (y + 3) / 4 - (y + 99) / 100 + (y + 399) / 400

/-- Day number of a calendar date counted from 0000-01-01, as Go's internal
absolute-time computation does (Go counts from year 1; only differences of
day numbers are used here, and those agree). -/
def dayNumber (t : GoTime) : Nat :=
  365 * t.year + leapsBeforeYear t.year + daysBeforeMonth t.month +
    (if 2 < t.month ∧ isLeap t.year then 1 else 0) + (t.day - 1)

/-- Absolute nanosecond timestamp of a parsed time, used to form
`end.Sub(start)`. -/
def absNs (t : GoTime) : Int :=
  ((dayNumber t * 86400 + t.hour * 3600 + t.min * 60 + t.sec : Nat) : Int) * 1000000000
    + (t.nsec : Int)

/-- Go `end.Sub(start)`: the difference as a `time.Duration` (int64
nanoseconds), saturating at the `Duration` limits on overflow. -/
def subDur (endT startT : GoTime) : Int :=
  let d := absNs endT - absNs startT
  if d > (2 ^ 63 - 1 : Int) then 2 ^ 63 - 1
  else if d < (-(2 ^ 63) : Int) then -(2 ^ 63)
  else d

/-- Go `fmt.Sprintf("%02d", n)` for an `int`: zero-pad to a minimum width of
two characters (the sign counts toward the width). -/
def intPad2 (n : Int) : String :=
  let s := toString n
  if s.length < 2 then "0" ++ s else s

/-- The program's `formatDuration`.  The Go code computes
`hours := int(d.Hours()); minutes := int(d.Minutes()) - hours*60` through
`float64` arithmetic; this model performs the same truncations in exact
integer arithmetic (`Int.div` truncates toward zero like Go's `int(...)`),
which agrees with the `float64` computation for the spans below roughly
2500 hours where the double rounding cannot cross an integer boundary.
No theorem below depends on this field's contents. -/
def formatDuration (d : Int) : String :=
  let hours := Int.tdiv d 3600000000000
  let minutes := Int.tdiv d 60000000000 - hours * 60
  intPad2 hours ++ ":" ++ intPad2 minutes

/-- A calendar event as the program consumes it from the external
`golang-ical` library: an ordered list of (IANA token, value) properties.
`GetProperty` scans them in order and returns the first match, or a nil
pointer when the property is absent. -/
structure VEvent where
  props : List (String × String)
deriving DecidableEq, Repr, Inhabited

/-- Go `event.GetProperty(name)` followed by `.Value`: `some` value of the first
property with the given token, `none` when the property is absent (in which
case reading `.Value` in Go dereferences a nil pointer and panics). -/
def getPropVal (e : VEvent) (key : String) : Option String :=
  (e.props.find? (fun p => p.1 == key)).map (fun p => p.2)

/-- The parsed command-line arguments (`CliArgs` in `main.go`). -/
structure CliArgs where
  icsPath : String
  outPath : String
  eventSummaryFilter : String
  name : String
  comma : String
  isStdout : Bool
deriving Repr, Inhabited

/-- The event-filter loop of `main`: for each event it reads
`event.GetProperty("SUMMARY").Value` (a nil-pointer panic, modelled as
`none`, when the event has no SUMMARY), skips the event when the filter is
non-empty and differs from the summary, and keeps it otherwise. -/
def filterEvents (filter : String) : List VEvent → Option (List VEvent)
  | [] => some []
  | e :: es =>
    match getPropVal e "SUMMARY" with
    | none => none
    | some s =>
      if filter ≠ "" ∧ s ≠ filter then filterEvents filter es
      else (filterEvents filter es).map (fun l => e :: l)

/-- One output row (`Column` in `main.go`). -/
structure Column where
  name : String
  date : String
  startTime : String
  endTime : String
  duration : String
deriving DecidableEq, Repr, Inhabited

/-- Outcome of building one row: success, a propagated time-parse error
(`log.Fatal` in `main`), or a nil-pointer panic from reading `.Value` of an
absent property. -/
inductive BuildOutcome (α : Type) where
  | ok (a : α)
  | parseErr
  | nilPanic
deriving DecidableEq, Repr

/-- Go `NewColumn(event, name)`: reads and parses DTSTART then DTEND, formats
the date, start, end and duration fields.  An absent property panics at the
`.Value` dereference; a present but malformed value propagates the parse
error. -/
def NewColumn (e : VEvent) (nm : String) : BuildOutcome Column :=
  match getPropVal e "DTSTART" with
  | none => .nilPanic
  | some sv =>
    match parseTime sv with
    | none => .parseErr
    | some startT =>
      match getPropVal e "DTEND" with
      | none => .nilPanic
      | some ev =>
        match parseTime ev with
        | none => .parseErr
        | some endT =>
          .ok { name := nm
                date := fmtDate startT
                startTime := fmtHM startT
                endTime := fmtHM endT
                duration := formatDuration (subDur endT startT) }

/-- The column-building loop of `main`: builds rows in order and stops the
whole run at the first failing event (`log.Fatal`, or the panic). -/
def buildColumns (nm : String) : List VEvent → BuildOutcome (List Column)
  | [] => .ok []
  | e :: es =>
    match NewColumn e nm with
    | .parseErr => .parseErr
    | .nilPanic => .nilPanic
    | .ok c =>
      match buildColumns nm es with
      | .parseErr => .parseErr
      | .nilPanic => .nilPanic
      | .ok cs => .ok (c :: cs)

/-- The comparison closure passed to `sort.Slice`:
`columns[i].date < columns[j].date || (columns[i].date == columns[j].date &&
columns[i].startTime < columns[j].startTime)`. -/
def lessColumn (x y : Column) : Bool :=
  strLtB x.date.data y.date.data || (x.date == y.date && strLtB x.startTime.data y.startTime.data)

/-- Read `arr[i]` with the type's default out of range (pdqsort only reads in
range; the default is never hit on the inputs considered). -/
def getE {α : Type} [Inhabited α] (arr : Array α) (i : Nat) : α := arr.getD i default

/-- Go `data.Swap(i, j)` of the sort package's `lessSwap`. -/
def swapA {α : Type} (arr : Array α) (i j : Nat) : Array α :=
  match arr[i]?, arr[j]? with
  | some x, some y => (arr.setD i y).setD j x
  | _, _ => arr

/-- Inner loop of Go `insertionSort_func`:
`for j := i; j > a && data.Less(j, j-1); j-- { data.Swap(j, j-1) }`. -/
def insertInner {α : Type} [Inhabited α] (less : α → α → Bool) (a : Nat) :
    Array α → Nat → Array α
  | arr, 0 => arr
  | arr, j + 1 =>
    if a < j + 1 && less (getE arr (j + 1)) (getE arr j) then
      insertInner less a (swapA arr (j + 1) j) j
    else arr

/-- Go `insertionSort_func(data, a, b)`. -/
def insertionSortGo {α : Type} [Inhabited α] (less : α → α → Bool) (arr : Array α)
    (a b : Nat) : Array α :=
  insertionSortLoopGo less a b (b - a) arr (a + 1)
where
  /-- Loop `for i := a + 1; i < b; i++ { inner }`. -/
  insertionSortLoopGo (less : α → α → Bool) (a b : Nat) :
      Nat → Array α → Nat → Array α
    | 0, arr, _ => arr
    | fuel + 1, arr, i =>
      if i < b then insertionSortLoopGo less a b fuel (insertInner less a arr i) (i + 1)
      else arr

/-- Go `siftDown_func(data, lo, hi, first)`, fuel-driven. -/
def siftDownGo {α : Type} [Inhabited α] (less : α → α → Bool) (hi first : Nat) :
    Nat → Array α → Nat → Array α
  | 0, arr, _ => arr
  | fuel + 1, arr, root =>
    let child := 2 * root + 1
    if child ≥ hi then arr
    else
      let child :=
        if child + 1 < hi && less (getE arr (first + child)) (getE arr (first + child + 1)) then
          child + 1
        else child
      if !less (getE arr (first + root)) (getE arr (first + child)) then arr
      else siftDownGo less hi first fuel (swapA arr (first + root) (first + child)) child

/-- First loop of Go `heapSort_func`: `for i := (hi-1)/2; i >= 0; i--`,
written as a countdown where the argument is the current `i`. -/
def heapBuild {α : Type} [Inhabited α] (less : α → α → Bool) (hi first : Nat) :
    Array α → Nat → Array α
  | arr, 0 => siftDownGo less hi first hi arr 0
  | arr, i + 1 => heapBuild less hi first (siftDownGo less hi first hi arr (i + 1)) i

/-- Second loop of Go `heapSort_func`: `for i := hi - 1; i >= 0; i--`. -/
def heapPop {α : Type} [Inhabited α] (less : α → α → Bool) (first : Nat) :
    Array α → Nat → Array α
  | arr, 0 => siftDownGo less 0 first 1 (swapA arr first (first + 0)) 0
  | arr, i + 1 =>
    heapPop less first (siftDownGo less (i + 1) first (i + 2) (swapA arr first (first + i + 1)) 0) i

/-- Go `heapSort_func(data, a, b)`. -/
def heapSortGo {α : Type} [Inhabited α] (less : α → α → Bool) (arr : Array α)
    (a b : Nat) : Array α :=
  let hi := b - a
  if hi = 0 then arr
  else heapPop less a (heapBuild less hi a arr ((hi - 1) / 2)) (hi - 1)

/-- Go `sort` package `xorshift.Next()` on a 64-bit word. -/
def xorshiftNext (r : Nat) : Nat :=
  let r := (r ^^^ (r <<< 13)) % 2 ^ 64
  let r := (r ^^^ (r >>> 7)) % 2 ^ 64
  (r ^^^ (r <<< 17)) % 2 ^ 64

/-- Go `sort` package `nextPowerOfTwo(length) = 1 << bits.Len(uint(length))`. -/
def nextPowerOfTwo (length : Nat) : Nat := 2 ^ bitsLen length

/-- Go `breakPatterns_func(data, a, b)`: scrambles three elements around the
middle using a deterministic xorshift seeded with the length. -/
def breakPatternsGo {α : Type} (arr : Array α) (a b : Nat) : Array α :=
  let length := b - a
  if length ≥ 8 then
    let modulus := nextPowerOfTwo length
    let idx := a + length / 4 * 2 - 1
    let r0 := length
    let r1 := xorshiftNext r0
    let o1 := pickOther r1 modulus length
    let arr := swapA arr (idx - 1) (a + o1)
    let r2 := xorshiftNext r1
    let o2 := pickOther r2 modulus length
    let arr := swapA arr idx (a + o2)
    let r3 := xorshiftNext r2
    let o3 := pickOther r3 modulus length
    swapA arr (idx + 1) (a + o3)
  else arr
where
  /-- Step `other := int(uint(random.Next()) & (modulus-1)); if other >= length { other -= length }`. -/
  pickOther (r modulus length : Nat) : Nat :=
    let other := r &&& (modulus - 1)
    if other ≥ length then other - length else other

/-- The `sortedHint` of Go's `choosePivot_func`. -/
inductive Hint where
  | unknown
  | increasing
  | decreasing
deriving DecidableEq, Repr

/-- Go `order2_func(data, a, b, &swaps)`. -/
def order2Go {α : Type} [Inhabited α] (less : α → α → Bool) (arr : Array α)
    (a b swaps : Nat) : Nat × Nat × Nat :=
  if less (getE arr b) (getE arr a) then (b, a, swaps + 1) else (a, b, swaps)

/-- Go `median_func(data, a, b, c, &swaps)`. -/
def medianGo {α : Type} [Inhabited α] (less : α → α → Bool) (arr : Array α)
    (a b c swaps : Nat) : Nat × Nat :=
  let p1 := order2Go less arr a b swaps
  let p2 := order2Go less arr p1.2.1 c p1.2.2
  let p3 := order2Go less arr p1.1 p2.1 p2.2.2
  (p3.2.1, p3.2.2)

/-- Go `medianAdjacent_func(data, a, &swaps)`. -/
def medianAdjacentGo {α : Type} [Inhabited α] (less : α → α → Bool) (arr : Array α)
    (a swaps : Nat) : Nat × Nat :=
  medianGo less arr (a - 1) a (a + 1) swaps

/-- Go `choosePivot_func(data, a, b)`. -/
def choosePivotGo {α : Type} [Inhabited α] (less : α → α → Bool) (arr : Array α)
    (a b : Nat) : Nat × Hint :=
  let l := b - a
  let i := a + l / 4 * 1
  let j := a + l / 4 * 2
  let k := a + l / 4 * 3
  let p :=
    if l ≥ 8 then
      if l ≥ 50 then
        let m1 := medianAdjacentGo less arr i 0
        let m2 := medianAdjacentGo less arr j m1.2
        let m3 := medianAdjacentGo less arr k m2.2
        medianGo less arr m1.1 m2.1 m3.1 m3.2
      else medianGo less arr i j k 0
    else (j, 0)
  if p.2 = 0 then (p.1, .increasing)
  else if p.2 = 12 then (p.1, .decreasing)
  else (p.1, .unknown)

/-- Go `reverseRange_func(data, a, b)`, fuel-driven two-pointer reversal. -/
def reverseRangeGo {α : Type} (arr : Array α) (a b : Nat) : Array α :=
  reverseLoop (b - a) arr a (b - 1)
where
  reverseLoop : Nat → Array α → Nat → Nat → Array α
    | 0, arr, _, _ => arr
    | fuel + 1, arr, i, j =>
      if i < j then reverseLoop fuel (swapA arr i j) (i + 1) (j - 1) else arr

/-- Left scan of Go `partition_func`: `for i <= j && data.Less(i, a) { i++ }`. -/
def scanLtGo {α : Type} [Inhabited α] (less : α → α → Bool) (arr : Array α) (a j : Nat) :
    Nat → Nat → Nat
  | 0, i => i
  | fuel + 1, i => if i ≤ j && less (getE arr i) (getE arr a) then scanLtGo less arr a j fuel (i + 1) else i

/-- Right scan of Go `partition_func`: `for i <= j && !data.Less(j, a) { j-- }`. -/
def scanGeGo {α : Type} [Inhabited α] (less : α → α → Bool) (arr : Array α) (a i : Nat) :
    Nat → Nat → Nat
  | 0, j => j
  | fuel + 1, j => if i ≤ j && !less (getE arr j) (getE arr a) then scanGeGo less arr a i fuel (j - 1) else j

/-- Main loop of Go `partition_func` after the first pair of scans. -/
def partitionLoopGo {α : Type} [Inhabited α] (less : α → α → Bool) (a b : Nat) :
    Nat → Array α → Nat → Nat → Array α × Nat
  | 0, arr, _, j => (arr, j)
  | fuel + 1, arr, i, j =>
    let i := scanLtGo less arr a j b i
    let j := scanGeGo less arr a i b j
    if i > j then (arr, j)
    else partitionLoopGo less a b fuel (swapA arr i j) (i + 1) (j - 1)

/-- Go `partition_func(data, a, b, pivot)`: returns the array, the new pivot
position and whether the range was already partitioned. -/
def partitionGo {α : Type} [Inhabited α] (less : α → α → Bool) (arr : Array α)
    (a b pivot : Nat) : Array α × Nat × Bool :=
  let arr := swapA arr a pivot
  let i := scanLtGo less arr a (b - 1) b (a + 1)
  let j := scanGeGo less arr a i b (b - 1)
  if i > j then (swapA arr j a, j, true)
  else
    let p := partitionLoopGo less a b b (swapA arr i j) (i + 1) (j - 1)
    (swapA p.1 p.2 a, p.2, false)

/-- Loop of Go `partitionEqual_func`. -/
def partitionEqualLoopGo {α : Type} [Inhabited α] (less : α → α → Bool) (a b : Nat) :
    Nat → Array α → Nat → Nat → Array α × Nat
  | 0, arr, i, _ => (arr, i)
  | fuel + 1, arr, i, j =>
    let i := scanEqGo fuel arr i j
    let j := scanGtGo fuel arr i j
    if i > j then (arr, i)
    else partitionEqualLoopGo less a b fuel (swapA arr i j) (i + 1) (j - 1)
where
  /-- Scan `for i <= j && !data.Less(a, i) { i++ }`. -/
  scanEqGo : Nat → Array α → Nat → Nat → Nat
    | 0, _, i, _ => i
    | fuel + 1, arr, i, j =>
      if i ≤ j && !less (getE arr a) (getE arr i) then scanEqGo fuel arr (i + 1) j else i
  /-- Scan `for i <= j && data.Less(a, j) { j-- }`. -/
  scanGtGo : Nat → Array α → Nat → Nat → Nat
    | 0, _, _, j => j
    | fuel + 1, arr, i, j =>
      if i ≤ j && less (getE arr a) (getE arr j) then scanGtGo fuel arr i (j - 1) else j

/-- Go `partitionEqual_func(data, a, b, pivot)`. -/
def partitionEqualGo {α : Type} [Inhabited α] (less : α → α → Bool) (arr : Array α)
    (a b pivot : Nat) : Array α × Nat :=
  partitionEqualLoopGo less a b b (swapA arr a pivot) (a + 1) (b - 1)

/-- Scan of Go `partialInsertionSort_func`:
`for i < b && !data.Less(i, i-1) { i++ }`. -/
def scanSortedGo {α : Type} [Inhabited α] (less : α → α → Bool) (arr : Array α) (b : Nat) :
    Nat → Nat → Nat
  | 0, i => i
  | fuel + 1, i =>
    if i < b && !less (getE arr i) (getE arr (i - 1)) then scanSortedGo less arr b fuel (i + 1)
    else i

/-- Backward shift of Go `partialInsertionSort_func`:
`for j := i - 1; j >= 1; j-- { if !data.Less(j, j-1) { break }; data.Swap(j, j-1) }`. -/
def shiftLeftGo {α : Type} [Inhabited α] (less : α → α → Bool) :
    Array α → Nat → Array α
  | arr, 0 => arr
  | arr, j + 1 =>
    if !less (getE arr (j + 1)) (getE arr j) then arr
    else shiftLeftGo less (swapA arr (j + 1) j) j

/-- Forward shift of Go `partialInsertionSort_func`:
`for j := i + 1; j < b; j++ { if !data.Less(j, j-1) { break }; data.Swap(j, j-1) }`. -/
def shiftRightGo {α : Type} [Inhabited α] (less : α → α → Bool) (b : Nat) :
    Nat → Array α → Nat → Array α
  | 0, arr, _ => arr
  | fuel + 1, arr, j =>
    if j < b then
      if !less (getE arr j) (getE arr (j - 1)) then arr
      else shiftRightGo less b fuel (swapA arr j (j - 1)) (j + 1)
    else arr

/-- Steps loop of Go `partialInsertionSort_func` (`maxSteps = 5`,
`shortestShifting = 50`); returns whether the range ended up sorted,
together with the (possibly mutated) array. -/
def pInsertionStepsGo {α : Type} [Inhabited α] (less : α → α → Bool) (a b : Nat) :
    Nat → Array α → Nat → Bool × Array α
  | 0, arr, _ => (false, arr)
  | steps + 1, arr, i =>
    let i := scanSortedGo less arr b b i
    if i = b then (true, arr)
    else if b - a < 50 then (false, arr)
    else
      let arr := swapA arr i (i - 1)
      let arr := if i - a ≥ 2 then shiftLeftGo less arr (i - 1) else arr
      let arr := if b - i ≥ 2 then shiftRightGo less b b arr (i + 1) else arr
      pInsertionStepsGo less a b steps arr i

/-- Go `partialInsertionSort_func(data, a, b)`: partially sorts the range and
reports whether it is sorted afterwards. -/
def pInsertionSortGo {α : Type} [Inhabited α] (less : α → α → Bool) (arr : Array α)
    (a b : Nat) : Bool × Array α :=
  pInsertionStepsGo less a b 5 arr (a + 1)

/-- Go `pdqsort_func(data, a, b, limit)` with explicit fuel for the outer
`for` loop and the recursion (both strictly decrease an interval/limit
measure, so any sufficiently large fuel computes the Go result; `sortSliceGo`
passes one).  `wasB`/`wasP` are the loop-carried `wasBalanced` and
`wasPartitioned` flags, which start out `true` on every fresh call. -/
def pdqsortAux {α : Type} [Inhabited α] (less : α → α → Bool) :
    Nat → Array α → Nat → Nat → Nat → Bool → Bool → Array α
  | 0, arr, _, _, _, _, _ => arr
  | fuel + 1, arr, a, b, limit, wasB, wasP =>
    let length := b - a
    if length ≤ 12 then insertionSortGo less arr a b
    else if limit = 0 then heapSortGo less arr a b
    else
      let arrLimit := if !wasB then (breakPatternsGo arr a b, limit - 1) else (arr, limit)
      let arr := arrLimit.1
      let limit := arrLimit.2
      let ph := choosePivotGo less arr a b
      let aph :=
        if ph.2 = Hint.decreasing then
          (reverseRangeGo arr a b, (b - 1) - (ph.1 - a), Hint.increasing)
        else (arr, ph.1, ph.2)
      let arr := aph.1
      let pivot := aph.2.1
      let hint := aph.2.2
      let da :=
        if wasB && wasP && (hint = Hint.increasing) then pInsertionSortGo less arr a b
        else (false, arr)
      if da.1 then da.2
      else
        let arr := da.2
        if a > 0 && !less (getE arr (a - 1)) (getE arr pivot) then
          let pm := partitionEqualGo less arr a b pivot
          pdqsortAux less fuel pm.1 pm.2 b limit wasB wasP
        else
          let pm := partitionGo less arr a b pivot
          let arr := pm.1
          let mid := pm.2.1
          let wasP := pm.2.2
          let leftLen := mid - a
          let rightLen := b - mid
          let wasB := decide (Nat.min leftLen rightLen ≥ length / 8)
          if leftLen < rightLen then
            let arr := pdqsortAux less fuel arr a mid limit true true
            pdqsortAux less fuel arr (mid + 1) b limit wasB wasP
          else
            let arr := pdqsortAux less fuel arr (mid + 1) b limit true true
            pdqsortAux less fuel arr a mid limit wasB wasP

/-- Go `sort.Slice(x, less)` on a list: pdqsort over the whole range with
`limit = bits.Len(uint(length))`.  The fuel `(n+2)*(n+66)` dominates the
number of loop iterations and recursive calls pdqsort can make (each one
shrinks the interval or, at most 64 + bits.Len times per interval, the
limit), so the computation always runs to completion. -/
def sortSliceGo {α : Type} [Inhabited α] (less : α → α → Bool) (l : List α) : List α :=
  let n := l.length
  (pdqsortAux less ((n + 2) * (n + 66)) l.toArray 0 n (bitsLen n) true true).toList

/-- The Unicode replacement character U+FFFD (`utf8.RuneError`), which Go's
`utf8.DecodeRuneInString` returns on an empty string. -/
def runeError : Char := Char.ofNat 0xFFFD

/-- Go `utf8.DecodeRuneInString(args.comma)` restricted to its first component:
the first rune of the string, or U+FFFD when the string is empty.  (CLI
argument strings are valid UTF-8, where the first rune is the first unicode
scalar value.) -/
def delimFromArg (s : String) : Char :=
  match s.data with
  | [] => runeError
  | c :: _ => c

/-- Go `unicode.IsSpace`: the White_Space code points. -/
def isSpaceRune (c : Char) : Bool :=
  c.toNat ∈ [0x9, 0xA, 0xB, 0xC, 0xD, 0x20, 0x85, 0xA0, 0x1680,
    0x2000, 0x2001, 0x2002, 0x2003, 0x2004, 0x2005, 0x2006, 0x2007,
    0x2008, 0x2009, 0x200A, 0x2028, 0x2029, 0x202F, 0x205F, 0x3000]

/-- Go `encoding/csv` `validDelim(r)`: the writer rejects NUL, quote, CR, LF and
U+FFFD as a field delimiter (every Lean `Char` is a valid rune, so the
`utf8.ValidRune` conjunct always holds here). -/
def validDelim (r : Char) : Bool :=
  !(r.toNat == 0) && !(r == '"') && !(r == '\r') && !(r == '\n') && !(r == runeError)

/-- Go `encoding/csv` `fieldNeedsQuotes(field)` with the default `UseCRLF =
false`: empty fields are bare; `\.` is always quoted; a field containing the
delimiter, quote, CR or LF is quoted (Go scans bytes when the delimiter is
ASCII — on UTF-8 no byte of a multi-byte rune is ASCII, so the byte scan
equals this rune scan); otherwise a field is quoted exactly when its first
rune is white space. -/
def fieldNeedsQuotes (comma : Char) (f : List Char) : Bool :=
  if f = [] then false
  else if f = ['\\', '.'] then true
  else if (if comma.toNat < 0x80 then
             f.any (fun c => c == '\n' || c == '\r' || c == '"' || c == comma)
           else f.contains comma) then true
  else
    match f with
    | c :: _ => isSpaceRune c
    | [] => false

/-- The quoting loop of `csv.Writer.Write` (`UseCRLF = false`): the field is
wrapped in quotes, each inner quote is doubled, CR and LF are copied
through. -/
def quoteFieldGo (f : List Char) : List Char :=
  '"' :: (f.flatMap fun c => if c == '"' then ['"', '"'] else [c]) ++ ['"']

/-- One field as emitted by `csv.Writer.Write`. -/
def encodeField (comma : Char) (f : List Char) : List Char :=
  if fieldNeedsQuotes comma f then quoteFieldGo f else f

/-- Go `csv.Writer.Write(record)`: fails with `ErrInvalidDelim` when the
configured delimiter is invalid, otherwise emits the delimiter-joined,
selectively quoted fields and a trailing `\n`. -/
def writeRecordGo (comma : Char) (record : List (List Char)) : Option (List Char) :=
  if !validDelim comma then none
  else
    some ((joinFields record ++ ['\n']))
where
  joinFields : List (List Char) → List Char
    | [] => []
    | [f] => encodeField comma f
    | f :: fs => encodeField comma f ++ comma :: joinFields fs

/-- The record of one `Column`, in the fixed field order of `writeCsv`. -/
def columnRecord (c : Column) : List (List Char) :=
  [c.name.data, c.date.data, c.startTime.data, c.endTime.data, c.duration.data]

/-- The program's `writeCsv(w, cols)`: writes one record per column, stopping at the first
error (which `main` turns into `log.Fatal`). -/
def csvWriteAll (comma : Char) : List Column → Option (List Char)
  | [] => some []
  | c :: cs =>
    match writeRecordGo comma (columnRecord c) with
    | none => none
    | some line =>
      match csvWriteAll comma cs with
      | none => none
      | some resto => some (line ++ resto)

/-- The whole pipeline of `main` after the external calendar parse: filter
events by summary, build columns (first failure aborts), sort with
`sort.Slice`, serialize with the csv writer.  `none` is any fatal outcome
(panic, `log.Fatal`); `some bytes` is the full serialized output. -/
def runPipeline (args : CliArgs) (events : List VEvent) : Option (List Char) :=
  match filterEvents args.eventSummaryFilter events with
  | none => none
  | some kept =>
    match buildColumns args.name kept with
    | .parseErr => none
    | .nilPanic => none
    | .ok cols =>
      csvWriteAll (delimFromArg args.comma) (sortSliceGo lessColumn cols)

/-- Observable file-system / stream effects of the output phase of `main`
(lines 152–166): choosing the sink and writing the serialized rows. -/
inductive Effect where
  | createFile (path : String)
  | writeFile (path : String) (bytes : List Char)
  | writeStdout (bytes : List Char)
deriving DecidableEq, Repr

/-- The output phase of `main`: with `--stdout` the rows go to the standard
output stream; otherwise the output file is created and written. -/
def outputPhase (args : CliArgs) (bytes : List Char) : List Effect :=
  if args.isStdout then [Effect.writeStdout bytes]
  else [Effect.createFile args.outPath, Effect.writeFile args.outPath bytes]

/-!  Specification-side definitions.

The following definitions are written from the specification's words, not
from the code; the theorems below compare the code embeddings against
them. -/

/-- Spec-side: the fixed pattern `YYYYMMDDThhmmss` with in-range components,
read positionally — exactly fifteen characters, fourteen decimal digits
around a literal `'T'`, month 1–12, day within the month, hour below 24,
minute and second below 60. -/
def claimPattern (s : String) : Bool :=
  match s.data with
  | [y1, y2, y3, y4, m1, m2, d1, d2, tc, h1, h2, mi1, mi2, s1, s2] =>
    isDigitC y1 && isDigitC y2 && isDigitC y3 && isDigitC y4 &&
    isDigitC m1 && isDigitC m2 && isDigitC d1 && isDigitC d2 && tc == 'T' &&
    isDigitC h1 && isDigitC h2 && isDigitC mi1 && isDigitC mi2 &&
    isDigitC s1 && isDigitC s2 &&
    decide (1 ≤ digC m1 * 10 + digC m2) && decide (digC m1 * 10 + digC m2 ≤ 12) &&
    decide (1 ≤ digC d1 * 10 + digC d2) &&
    decide (digC d1 * 10 + digC d2 ≤
      daysIn (digC m1 * 10 + digC m2) (digC y1 * 1000 + digC y2 * 100 + digC y3 * 10 + digC y4)) &&
    decide (digC h1 * 10 + digC h2 ≤ 23) &&
    decide (digC mi1 * 10 + digC mi2 ≤ 59) && decide (digC s1 * 10 + digC s2 ≤ 59)
  | _ => false

/-- Spec-side: an optional fractional-second suffix — nothing, or `'.'`/`','`
followed by at least one digit and nothing but digits. -/
def fracOk : List Char → Bool
  | [] => true
  | c :: cs => (c == '.' || c == ',') && !cs.isEmpty && cs.all isDigitC

/-- Spec-side: nanosecond value written by a fractional suffix (at most nine
digits of precision, scaled to nanoseconds). -/
def fracNsOf : List Char → Nat
  | [] => 0
  | _ :: cs =>
    let used := cs.take 9
    digitsVal used * 10 ^ (9 - used.length)

/-- Spec-side reading of the amended time-parser contract, positionally: the
fixed pattern `YYYYMMDDThhmmss` with in-range components, optionally followed
by a fractional-second suffix, mapped to the timestamp spelled by its own
digits (no timezone conversion); anything else is rejected. -/
def specTimeChars (l : List Char) : Option GoTime :=
  match l with
  | y1 :: y2 :: y3 :: y4 :: m1 :: m2 :: d1 :: d2 :: tc :: h1 :: h2 :: mi1 :: mi2 :: s1 :: s2 :: rest =>
    if isDigitC y1 = true ∧ isDigitC y2 = true ∧ isDigitC y3 = true ∧ isDigitC y4 = true ∧
       isDigitC m1 = true ∧ isDigitC m2 = true ∧ isDigitC d1 = true ∧ isDigitC d2 = true ∧
       tc = 'T' ∧
       isDigitC h1 = true ∧ isDigitC h2 = true ∧ isDigitC mi1 = true ∧ isDigitC mi2 = true ∧
       isDigitC s1 = true ∧ isDigitC s2 = true ∧
       1 ≤ digC m1 * 10 + digC m2 ∧ digC m1 * 10 + digC m2 ≤ 12 ∧
       1 ≤ digC d1 * 10 + digC d2 ∧
       digC d1 * 10 + digC d2 ≤
         daysIn (digC m1 * 10 + digC m2)
           (digC y1 * 1000 + digC y2 * 100 + digC y3 * 10 + digC y4) ∧
       digC h1 * 10 + digC h2 ≤ 23 ∧
       digC mi1 * 10 + digC mi2 ≤ 59 ∧ digC s1 * 10 + digC s2 ≤ 59 ∧
       fracOk rest = true then
      some ⟨digC y1 * 1000 + digC y2 * 100 + digC y3 * 10 + digC y4,
            digC m1 * 10 + digC m2,
            digC d1 * 10 + digC d2,
            digC h1 * 10 + digC h2,
            digC mi1 * 10 + digC mi2,
            digC s1 * 10 + digC s2,
            fracNsOf rest⟩
    else none
  | _ => none

/-- Spec-side amended time-parser contract on strings. -/
def specTime (s : String) : Option GoTime := specTimeChars s.data

/-- Strict chronological order of two parsed timestamps: lexicographic on
(year, month, day, hour, minute, second, nanosecond), which for in-range
calendar fields is exactly the order of the instants they denote. -/
def chronLt (t u : GoTime) : Prop :=
  t.year < u.year ∨ (t.year = u.year ∧ (t.month < u.month ∨ (t.month = u.month ∧
    (t.day < u.day ∨ (t.day = u.day ∧ (t.hour < u.hour ∨ (t.hour = u.hour ∧
      (t.min < u.min ∨ (t.min = u.min ∧ (t.sec < u.sec ∨ (t.sec = u.sec ∧
        t.nsec < u.nsec)))))))))))

/-- Chronological order allowing equality. -/
def chronLe (t u : GoTime) : Prop := chronLt t u ∨ t = u

/-- The composite key order the sorter uses, applied to formatted
timestamps: date string strictly below, or equal date strings and start-time
string strictly below (Go string `<` is lexicographic). -/
def keyLt (t u : GoTime) : Prop :=
  strLtB (fmtDate t).data (fmtDate u).data = true ∨
    (fmtDate t = fmtDate u ∧ strLtB (fmtHM t).data (fmtHM u).data = true)

/-- The composite key order allowing equality of both formatted strings. -/
def keyLe (t u : GoTime) : Prop :=
  keyLt t u ∨ (fmtDate t = fmtDate u ∧ fmtHM t = fmtHM u)

/-- A concrete row for the sorter, with the `name` field used as an input
identity tag (names do not participate in the comparison). -/
def mkRow (nm dt st : String) : Column :=
  { name := nm, date := dt, startTime := st, endTime := "10:00", duration := "01:00" }

/-- Thirteen built rows, all at start time `09:00`: rows `A` (index 0) and
`G` (index 6) share the middle date and are the tied pair; five rows `B`–`F`
carry an earlier date and six rows `H`–`M` a later one.  Thirteen elements
exceed pdqsort's insertion-sort cutoff of twelve, so `sort.Slice` takes the
partitioning path on this input. -/
def unstableInput : List Column :=
  [mkRow "A" "2024/01/02" "09:00",
   mkRow "B" "2024/01/01" "09:00",
   mkRow "C" "2024/01/01" "09:00",
   mkRow "D" "2024/01/01" "09:00",
   mkRow "E" "2024/01/01" "09:00",
   mkRow "F" "2024/01/01" "09:00",
   mkRow "G" "2024/01/02" "09:00",
   mkRow "H" "2024/01/03" "09:00",
   mkRow "I" "2024/01/03" "09:00",
   mkRow "J" "2024/01/03" "09:00",
   mkRow "K" "2024/01/03" "09:00",
   mkRow "L" "2024/01/03" "09:00",
   mkRow "M" "2024/01/03" "09:00"]

/-!  Theorems. -/

theorem filterEvents_total (f : String) (es : List VEvent)
    (h : ∀ e ∈ es, (getPropVal e "SUMMARY").isSome) :
    filterEvents f es =
      some (if f = "" then es
            else es.filter (fun e => getPropVal e "SUMMARY" == some f)) := by
  induction es with
  | nil => simp [filterEvents]
  | cons e es ih =>
    obtain ⟨s, hs⟩ := Option.isSome_iff_exists.mp (h e (List.mem_cons_self e es))
    have ih2 := ih (fun x hx => h x (List.mem_cons_of_mem e hx))
    by_cases hf : f = ""
    · subst hf
      simp [filterEvents, hs, ih2]
    · by_cases hsf : s = f
      · subst hsf
        simp [filterEvents, hs, hf, ih2, List.filter_cons]
      · simp [filterEvents, hs, hf, hsf, ih2, List.filter_cons]

theorem filterEvents_none_of_missing (f : String) (es : List VEvent) (e : VEvent)
    (he : e ∈ es) (hs : getPropVal e "SUMMARY" = none) :
    filterEvents f es = none := by
  induction es with
  | nil => cases he
  | cons x es ih =>
    rcases List.mem_cons.mp he with rfl | hmem
    · simp [filterEvents, hs]
    · rcases hx : getPropVal x "SUMMARY" with _ | s
      · simp [filterEvents, hx]
      · simp [filterEvents, hx, ih hmem]

/-- C2: with every event carrying a SUMMARY property, the selector returns
exactly the events whose summary equals a non-empty filter, in input order,
and returns all events unchanged when the filter is empty. -/
theorem filter_keeps_exactly_matching_summaries (f : String) (es : List VEvent)
    (h : ∀ e ∈ es, (getPropVal e "SUMMARY").isSome) :
    filterEvents f es =
      some (if f = "" then es
            else es.filter (fun e => getPropVal e "SUMMARY" == some f)) :=
  filterEvents_total f es h

theorem filter_keeps_exactly_matching_summaries_witness :
    filterEvents "Lunch"
        [⟨[("SUMMARY", "Standup")]⟩, ⟨[("SUMMARY", "Lunch")]⟩] =
      some [⟨[("SUMMARY", "Lunch")]⟩] := by
  have h := filter_keeps_exactly_matching_summaries "Lunch"
    [⟨[("SUMMARY", "Standup")]⟩, ⟨[("SUMMARY", "Lunch")]⟩] (by decide)
  simpa using h

/-- C10: an event without a SUMMARY property makes the selection loop
dereference a nil property pointer (a runtime panic, not one of the
specified error kinds), and the filter stage is total when every event
carries a SUMMARY. -/
theorem missing_summary_panics_filter (f : String) (es : List VEvent) :
    (∀ e ∈ es, getPropVal e "SUMMARY" = none → filterEvents f es = none) ∧
    ((∀ e ∈ es, (getPropVal e "SUMMARY").isSome) → (filterEvents f es).isSome) := by
  constructor
  · intro e he hs
    exact filterEvents_none_of_missing f es e he hs
  · intro h
    rw [filterEvents_total f es h]
    rfl

theorem missing_summary_panics_filter_witness :
    filterEvents "" [⟨[("DTSTART", "20240105T090000")]⟩] = none :=
  (missing_summary_panics_filter "" [⟨[("DTSTART", "20240105T090000")]⟩]).1
    ⟨[("DTSTART", "20240105T090000")]⟩ (by decide) (by decide)

theorem buildColumns_not_ok (nm : String) (es : List VEvent) (e : VEvent)
    (he : e ∈ es)
    (hf : NewColumn e nm = .parseErr ∨ NewColumn e nm = .nilPanic) :
    ∀ cs, buildColumns nm es ≠ .ok cs := by
  induction es with
  | nil => cases he
  | cons x es ih =>
    intro cs hok
    rcases List.mem_cons.mp he with rfl | hmem
    · rcases hf with h | h <;> simp [buildColumns, h] at hok
    · rcases hx : NewColumn x nm with c | _ | _
      · rcases hrec : buildColumns nm es with cs2 | _ | _
        · exact ih hmem cs2 hrec
        · simp [buildColumns, hx, hrec] at hok
        · simp [buildColumns, hx, hrec] at hok
      · simp [buildColumns, hx] at hok
      · simp [buildColumns, hx] at hok

/-- C3 counterexample: an event whose DTSTART property is absent makes
`NewColumn` hit the nil-pointer dereference (`GetProperty(...).Value`), not
a propagated time-parse error, contradicting the claim that an absent
timestamp field fails "by propagating the Time Parser's error". -/
theorem newColumn_absent_dtstart_panics_not_parseErr :
    getPropVal ⟨[("SUMMARY", "x")]⟩ "DTSTART" = none ∧
    NewColumn ⟨[("SUMMARY", "x")]⟩ "n" = .nilPanic ∧
    NewColumn ⟨[("SUMMARY", "x")]⟩ "n" ≠ .parseErr := by
  refine ⟨by decide, by decide, by decide⟩

/-- C3 (amended): a selected event with a malformed DTSTART or DTEND makes
row building propagate the Time Parser's error, while an absent DTSTART or
DTEND makes it panic on the nil property pointer; in every such case no row
is produced and the column-building loop of `main` never completes, so no
complete output is written. -/
theorem rowBuild_failure_modes (e : VEvent) (nm : String)
    (hbad : getPropVal e "DTSTART" = none ∨
      (∃ v, getPropVal e "DTSTART" = some v ∧ parseTime v = none) ∨
      getPropVal e "DTEND" = none ∨
      (∃ w, getPropVal e "DTEND" = some w ∧ parseTime w = none)) :
    (∀ c, NewColumn e nm ≠ .ok c) ∧
    (getPropVal e "DTSTART" = none → NewColumn e nm = .nilPanic) ∧
    (∀ v, getPropVal e "DTSTART" = some v → parseTime v = none →
      NewColumn e nm = .parseErr) ∧
    (∀ es, e ∈ es → ∀ cs, buildColumns nm es ≠ .ok cs) := by
  have hfail : NewColumn e nm = .parseErr ∨ NewColumn e nm = .nilPanic := by
    rcases hbad with h | ⟨v, hv, hpv⟩ | h | ⟨w, hw, hpw⟩
    · right; simp [NewColumn, h]
    · left; simp [NewColumn, hv, hpv]
    · rcases hs : getPropVal e "DTSTART" with _ | v
      · right; simp [NewColumn, hs]
      · rcases hpv : parseTime v with _ | t
        · left; simp [NewColumn, hs, hpv]
        · right; simp [NewColumn, hs, hpv, h]
    · rcases hs : getPropVal e "DTSTART" with _ | v
      · right; simp [NewColumn, hs]
      · rcases hpv : parseTime v with _ | t
        · left; simp [NewColumn, hs, hpv]
        · left; simp [NewColumn, hs, hpv, hw, hpw]
  refine ⟨?_, ?_, ?_, ?_⟩
  · intro c hok
    rcases hfail with h | h <;> rw [h] at hok <;> cases hok
  · intro h
    simp [NewColumn, h]
  · intro v hv hpv
    simp [NewColumn, hv, hpv]
  · intro es he cs
    exact buildColumns_not_ok nm es e he hfail cs

theorem rowBuild_failure_modes_witness :
    (∀ c, NewColumn ⟨[("SUMMARY", "x"), ("DTSTART", "20240105T090000")]⟩ "n" ≠ .ok c) ∧
    (∀ cs, buildColumns "n" [⟨[("SUMMARY", "x"), ("DTSTART", "20240105T090000")]⟩] ≠ .ok cs) := by
  have h := rowBuild_failure_modes ⟨[("SUMMARY", "x"), ("DTSTART", "20240105T090000")]⟩ "n"
    (Or.inr (Or.inr (Or.inl (by decide))))
  exact ⟨h.1, fun cs => h.2.2.2 _ (List.mem_singleton.mpr rfl) cs⟩

/-- C7: with the `--stdout` flag set, the output phase writes the rows to
the standard output stream and performs no file-system effect at all on the
output path (no create, no write). -/
theorem stdout_mode_creates_no_file (args : CliArgs) (bytes : List Char)
    (h : args.isStdout = true) :
    outputPhase args bytes = [Effect.writeStdout bytes] ∧
    (∀ p, Effect.createFile p ∉ outputPhase args bytes) ∧
    (∀ p b, Effect.writeFile p b ∉ outputPhase args bytes) := by
  refine ⟨by simp [outputPhase, h], ?_, ?_⟩
  · intro p
    simp [outputPhase, h]
  · intro p b
    simp [outputPhase, h]

theorem stdout_mode_creates_no_file_witness :
    outputPhase ⟨"cal.ics", "out.csv", "", "n", "\t", true⟩ ['x'] =
      [Effect.writeStdout ['x']] ∧
    Effect.createFile "out.csv" ∉ outputPhase ⟨"cal.ics", "out.csv", "", "n", "\t", true⟩ ['x'] := by
  have h := stdout_mode_creates_no_file ⟨"cal.ics", "out.csv", "", "n", "\t", true⟩ ['x'] rfl
  exact ⟨h.1, h.2.1 "out.csv"⟩

/-- C8: the pipeline (filter, build, sort, serialize) is a function of the
argument vector and the parsed calendar alone, so two runs on the same
inputs produce identical output bytes. -/
theorem pipeline_deterministic (args : CliArgs) (events : List VEvent)
    (o1 o2 : Option (List Char))
    (h1 : runPipeline args events = o1) (h2 : runPipeline args events = o2) :
    o1 = o2 := by
  rw [← h1, ← h2]

set_option maxRecDepth 10000 in
theorem pipeline_deterministic_witness :
    (some ("n\t2024/01/05\t09:00\t10:00\t01:00\n".data) : Option (List Char)) =
      some ("n\t2024/01/05\t09:00\t10:00\t01:00\n".data) :=
  pipeline_deterministic ⟨"c", "o", "", "n", "\t", false⟩
    [⟨[("SUMMARY", "x"), ("DTSTART", "20240105T090000"), ("DTEND", "20240105T100000")]⟩]
    _ _ (by decide) (by decide)

/-- C9 counterexample: with an empty `--delimiter` argument the decoded
delimiter is U+FFFD, but writing a row is then an error
(`csv: invalid field or comma delimiter`, hence `log.Fatal`), refuting
"yields U+FFFD as the delimiter rather than an error". -/
theorem empty_delimiter_write_errors :
    delimFromArg "" = runeError ∧
    csvWriteAll (delimFromArg "") [mkRow "A" "2024/01/01" "09:00"] = none := by
  exact ⟨by decide, by decide⟩

/-- C9 (amended): only the first rune of the `--delimiter` argument is used
(longer values are silently truncated); an empty value yields U+FFFD without
an error at the assignment, but the CSV writer rejects U+FFFD as an invalid
delimiter, so writing any row fails. -/
theorem delimiter_first_rune_and_empty_behavior (s : String) :
    (∀ c rest, s.data = c :: rest → delimFromArg s = c) ∧
    (s.data = [] →
      delimFromArg s = runeError ∧ ∀ col, csvWriteAll (delimFromArg s) [col] = none) := by
  constructor
  · intro c rest h
    simp [delimFromArg, h]
  · intro h
    have hd : delimFromArg s = runeError := by simp [delimFromArg, h]
    refine ⟨hd, ?_⟩
    intro col
    have hv : validDelim runeError = false := by decide
    simp [csvWriteAll, writeRecordGo, hd, hv]

theorem delimiter_first_rune_and_empty_behavior_witness :
    delimFromArg "ab" = 'a' ∧
    csvWriteAll (delimFromArg "") [mkRow "A" "2024/01/01" "09:00"] = none :=
  ⟨(delimiter_first_rune_and_empty_behavior "ab").1 'a' ['b'] (by decide),
   ((delimiter_first_rune_and_empty_behavior "").2 (by decide)).2 _⟩

set_option maxRecDepth 10000 in
/-- C1 (code bug evidence): on this thirteen-row input the rows named `A`
(input index 0) and `G` (input index 6) have identical `date` and
`startTime` keys, yet `sort.Slice`'s pdqsort emits `G` before `A` (and
rotates the tied `2024/01/01` group to `F, B, C, D, E`): the sort orders
rows by the composite key but does not preserve the relative input order of
tied rows. -/
theorem sortSlice_reorders_equal_keys :
    (unstableInput.map Column.name =
        ["A", "B", "C", "D", "E", "F", "G", "H", "I", "J", "K", "L", "M"] ∧
      (mkRow "A" "2024/01/02" "09:00").date = (mkRow "G" "2024/01/02" "09:00").date ∧
      (mkRow "A" "2024/01/02" "09:00").startTime =
        (mkRow "G" "2024/01/02" "09:00").startTime) ∧
    (sortSliceGo lessColumn unstableInput).map Column.name =
      ["F", "B", "C", "D", "E", "G", "A", "H", "I", "J", "K", "L", "M"] := by
  exact ⟨⟨by decide, by decide, by decide⟩, by decide⟩

theorem takeDigits_of_all (l : List Char) (h : l.all isDigitC = true) :
    takeDigits l = (l, []) := by
  induction l with
  | nil => rfl
  | cons c cs ih =>
    rw [List.all_cons, Bool.and_eq_true] at h
    simp [takeDigits, h.1, ih h.2]

theorem takeDigits_snd_nil (l : List Char) :
    (takeDigits l).2 = [] ↔ l.all isDigitC = true := by
  induction l with
  | nil => simp [takeDigits]
  | cons c cs ih =>
    by_cases hc : isDigitC c = true
    · simp [takeDigits, hc, ih]
    · simp [takeDigits, hc]

theorem parseFrac_snd_nil (l : List Char) :
    (parseFrac l).2 = [] ↔ fracOk l = true := by
  rcases l with _ | ⟨c1, _ | ⟨c2, rest⟩⟩
  · simp [parseFrac, fracOk]
  · simp [parseFrac, fracOk]
  · by_cases hsep : ((c1 == '.' || c1 == ',') && isDigitC c2) = true
    · rw [Bool.and_eq_true] at hsep
      simp only [parseFrac, hsep.1, hsep.2, Bool.and_self, if_pos]
      rw [takeDigits_snd_nil]
      simp [fracOk, hsep.1, hsep.2]
    · rw [Bool.and_eq_true] at hsep
      push_neg at hsep
      by_cases hs : (c1 == '.' || c1 == ',') = true
      · have hc2 : isDigitC c2 = false := by simpa using hsep hs
        simp [parseFrac, fracOk, hs, hc2]
      · have hs2 : (c1 == '.' || c1 == ',') = false := by simpa using hs
        simp [parseFrac, fracOk, hs2]

theorem parseFrac_fst_of (l : List Char) (h : fracOk l = true) :
    (parseFrac l).1 = fracNsOf l := by
  rcases l with _ | ⟨c1, _ | ⟨c2, rest⟩⟩
  · rfl
  · simp [fracOk] at h
  · rw [show fracOk (c1 :: c2 :: rest)
        = ((c1 == '.' || c1 == ',') && !(c2 :: rest).isEmpty && (c2 :: rest).all isDigitC)
      from rfl, Bool.and_eq_true, Bool.and_eq_true] at h
    obtain ⟨⟨hs, -⟩, hall⟩ := h
    have hc2 : isDigitC c2 = true := by
      have h2 := hall
      simp only [List.all_cons, Bool.and_eq_true] at h2
      exact h2.1
    simp [parseFrac, hs, hc2, takeDigits_of_all _ hall, fracNsOf]

theorem parseYear_eq_some {l : List Char} {y : Nat} {rest : List Char} :
    parseYear l = some (y, rest) ↔
      ∃ c1 c2 c3 c4, l = c1 :: c2 :: c3 :: c4 :: rest ∧
        isDigitC c1 = true ∧ isDigitC c2 = true ∧ isDigitC c3 = true ∧ isDigitC c4 = true ∧
        y = digC c1 * 1000 + digC c2 * 100 + digC c3 * 10 + digC c4 := by
  constructor
  · intro h
    rcases l with _ | ⟨c1, _ | ⟨c2, _ | ⟨c3, _ | ⟨c4, r⟩⟩⟩⟩
    · simp [parseYear] at h
    · simp [parseYear] at h
    · simp [parseYear] at h
    · simp [parseYear] at h
    · by_cases hd : (isDigitC c1 && isDigitC c2 && isDigitC c3 && isDigitC c4) = true
      · rw [parseYear, if_pos hd, Option.some.injEq, Prod.mk.injEq] at h
        obtain ⟨hy, hr⟩ := h
        cases hr
        simp only [Bool.and_eq_true] at hd
        exact ⟨c1, c2, c3, c4, rfl, hd.1.1.1, hd.1.1.2, hd.1.2, hd.2, hy.symm⟩
      · rw [parseYear, if_neg hd] at h
        cases h
  · rintro ⟨c1, c2, c3, c4, rfl, h1, h2, h3, h4, rfl⟩
    simp [parseYear, h1, h2, h3, h4]

theorem getnum_true_eq_some {v : List Char} {x : Nat} {rest : List Char} :
    getnum true v = some (x, rest) ↔
      ∃ c1 c2, v = c1 :: c2 :: rest ∧ isDigitC c1 = true ∧ isDigitC c2 = true ∧
        x = digC c1 * 10 + digC c2 := by
  constructor
  · intro h
    rcases v with _ | ⟨c1, _ | ⟨c2, r⟩⟩
    · simp [getnum] at h
    · simp [getnum] at h
    · by_cases h1 : isDigitC c1 = true
      · by_cases h2 : isDigitC c2 = true
        · rw [getnum, if_pos h1, if_pos h2, Option.some.injEq, Prod.mk.injEq] at h
          obtain ⟨hx, hr⟩ := h
          cases hr
          exact ⟨c1, c2, rfl, h1, h2, hx.symm⟩
        · simp [getnum, h1, h2] at h
      · simp [getnum, h1] at h
  · rintro ⟨c1, c2, rfl, h1, h2, rfl⟩
    simp [getnum, h1, h2]

theorem getnum_false_eq_some {v : List Char} {x : Nat} {rest : List Char} :
    getnum false v = some (x, rest) ↔
      ((∃ c1 c2, v = c1 :: c2 :: rest ∧ isDigitC c1 = true ∧ isDigitC c2 = true ∧
          x = digC c1 * 10 + digC c2) ∨
        (∃ c1, v = c1 :: rest ∧ isDigitC c1 = true ∧ x = digC c1 ∧
          (rest = [] ∨ ∃ c2 r2, rest = c2 :: r2 ∧ isDigitC c2 = false))) := by
  constructor
  · intro h
    rcases v with _ | ⟨c1, _ | ⟨c2, r⟩⟩
    · simp [getnum] at h
    · by_cases h1 : isDigitC c1 = true
      · rw [getnum, if_pos (by simp [h1]), Option.some.injEq, Prod.mk.injEq] at h
        obtain ⟨hx, hr⟩ := h
        cases hr
        exact Or.inr ⟨c1, rfl, h1, hx.symm, Or.inl rfl⟩
      · simp [getnum, h1] at h
    · by_cases h1 : isDigitC c1 = true
      · by_cases h2 : isDigitC c2 = true
        · rw [getnum, if_pos h1, if_pos h2, Option.some.injEq, Prod.mk.injEq] at h
          obtain ⟨hx, hr⟩ := h
          cases hr
          exact Or.inl ⟨c1, c2, rfl, h1, h2, hx.symm⟩
        · rw [getnum, if_pos h1, if_neg (by simp [h2]), if_neg (by simp),
            Option.some.injEq, Prod.mk.injEq] at h
          obtain ⟨hx, hr⟩ := h
          cases hr
          have h2f : isDigitC c2 = false := by simpa using h2
          exact Or.inr ⟨c1, rfl, h1, hx.symm, Or.inr ⟨c2, r, rfl, h2f⟩⟩
      · simp [getnum, h1] at h
  · rintro (⟨c1, c2, rfl, h1, h2, rfl⟩ | ⟨c1, rfl, h1, rfl, hrest⟩)
    · simp [getnum, h1, h2]
    · rcases hrest with rfl | ⟨c2, r2, rfl, h2⟩
      · simp [getnum, h1]
      · simp [getnum, h1, h2]

theorem parseTimeChars_some_imp {l : List Char} {t : GoTime}
    (h : parseTimeChars l = some t) : specTimeChars l = some t := by
  unfold parseTimeChars at h
  split at h
  · exact Option.noConfusion h
  rename_i year v1 hpy
  split at h
  · exact Option.noConfusion h
  rename_i month v2 hg1
  split at h
  · exact Option.noConfusion h
  rename_i hmo
  split at h
  · exact Option.noConfusion h
  rename_i day v3 hg2
  split at h
  · exact Option.noConfusion h
  rename_i tc v4
  split at h
  swap
  · exact Option.noConfusion h
  rename_i htc
  split at h
  · exact Option.noConfusion h
  rename_i hour v5 hg3
  split at h
  · exact Option.noConfusion h
  rename_i hh
  split at h
  · exact Option.noConfusion h
  rename_i minute v6 hg4
  split at h
  · exact Option.noConfusion h
  rename_i hmi
  split at h
  · exact Option.noConfusion h
  rename_i sec v7 hg5
  split at h
  · exact Option.noConfusion h
  rename_i hsec
  split at h
  swap
  · exact Option.noConfusion h
  rename_i hfr
  split at h
  · exact Option.noConfusion h
  rename_i hday
  obtain ⟨y1, y2, y3, y4, hl, hq1, hq2, hq3, hq4, hyv⟩ := parseYear_eq_some.mp hpy
  obtain ⟨m1, m2, hv1, hm1, hm2, hmv⟩ := getnum_true_eq_some.mp hg1
  obtain ⟨d1, d2, hv2, hd1, hd2, hdv⟩ := getnum_true_eq_some.mp hg2
  obtain ⟨mi1, mi2, hv5, hmi1, hmi2, hmiv⟩ := getnum_true_eq_some.mp hg4
  obtain ⟨sc1, sc2, hv6, hs1, hs2, hscv⟩ := getnum_true_eq_some.mp hg5
  rcases getnum_false_eq_some.mp hg3 with ⟨hc1, hc2, hv4, hh1, hh2, hhv⟩ |
      ⟨hc1, hv4, hh1, hhv, hbad⟩
  · subst htc hyv hmv hdv hhv hmiv hscv hv6 hv5 hv4 hv2 hv1 hl
    have hfrok : fracOk v7 = true := (parseFrac_snd_nil v7).mp hfr
    rw [parseFrac_fst_of v7 hfrok] at h
    simp only [specTimeChars]
    rw [if_pos ⟨hq1, hq2, hq3, hq4, hm1, hm2, hd1, hd2, trivial, hh1, hh2, hmi1, hmi2,
      hs1, hs2, by omega, by omega, by omega, by omega, by omega, by omega, by omega, hfrok⟩]
    exact h
  · exfalso
    rcases hbad with hnil | ⟨cB, rB, hvB, hdigB⟩
    · rw [hnil] at hv5
      exact List.noConfusion hv5
    · rw [hvB] at hv5
      obtain ⟨hcb, -⟩ := List.cons.injEq .. ▸ hv5
      rw [hcb] at hdigB
      rw [hmi1] at hdigB
      exact Bool.noConfusion hdigB

theorem specTimeChars_some_imp {l : List Char} {t : GoTime}
    (h : specTimeChars l = some t) : parseTimeChars l = some t := by
  unfold specTimeChars at h
  split at h
  swap
  · exact Option.noConfusion h
  rename_i y1 y2 y3 y4 m1 m2 d1 d2 tc hc1 hc2 mi1 mi2 sc1 sc2 rest
  split at h
  swap
  · exact Option.noConfusion h
  rename_i hcond
  obtain ⟨hq1, hq2, hq3, hq4, hm1, hm2, hd1, hd2, htc, hh1, hh2, hmi1, hmi2, hs1, hs2,
    hmo1, hmo2, hdy1, hdy2, hhr, hmin, hsec2, hfrok⟩ := hcond
  subst htc
  have hfr2 : parseFrac rest = (fracNsOf rest, []) := by
    have e1 := parseFrac_fst_of rest hfrok
    have e2 := (parseFrac_snd_nil rest).mpr hfrok
    rw [← e1, ← e2]
  have epy : parseYear (y1 :: y2 :: y3 :: y4 :: m1 :: m2 :: d1 :: d2 :: 'T' :: hc1 :: hc2 ::
      mi1 :: mi2 :: sc1 :: sc2 :: rest) =
      some (digC y1 * 1000 + digC y2 * 100 + digC y3 * 10 + digC y4,
        m1 :: m2 :: d1 :: d2 :: 'T' :: hc1 :: hc2 :: mi1 :: mi2 :: sc1 :: sc2 :: rest) :=
    parseYear_eq_some.mpr ⟨y1, y2, y3, y4, rfl, hq1, hq2, hq3, hq4, rfl⟩
  have eg1 : getnum true (m1 :: m2 :: d1 :: d2 :: 'T' :: hc1 :: hc2 ::
      mi1 :: mi2 :: sc1 :: sc2 :: rest) =
      some (digC m1 * 10 + digC m2,
        d1 :: d2 :: 'T' :: hc1 :: hc2 :: mi1 :: mi2 :: sc1 :: sc2 :: rest) :=
    getnum_true_eq_some.mpr ⟨m1, m2, rfl, hm1, hm2, rfl⟩
  have eg2 : getnum true (d1 :: d2 :: 'T' :: hc1 :: hc2 ::
      mi1 :: mi2 :: sc1 :: sc2 :: rest) =
      some (digC d1 * 10 + digC d2,
        'T' :: hc1 :: hc2 :: mi1 :: mi2 :: sc1 :: sc2 :: rest) :=
    getnum_true_eq_some.mpr ⟨d1, d2, rfl, hd1, hd2, rfl⟩
  have eg3 : getnum false (hc1 :: hc2 :: mi1 :: mi2 :: sc1 :: sc2 :: rest) =
      some (digC hc1 * 10 + digC hc2, mi1 :: mi2 :: sc1 :: sc2 :: rest) := by
    simp [getnum, hh1, hh2]
  have eg4 : getnum true (mi1 :: mi2 :: sc1 :: sc2 :: rest) =
      some (digC mi1 * 10 + digC mi2, sc1 :: sc2 :: rest) :=
    getnum_true_eq_some.mpr ⟨mi1, mi2, rfl, hmi1, hmi2, rfl⟩
  have eg5 : getnum true (sc1 :: sc2 :: rest) =
      some (digC sc1 * 10 + digC sc2, rest) :=
    getnum_true_eq_some.mpr ⟨sc1, sc2, rfl, hs1, hs2, rfl⟩
  have nmo : ¬(digC m1 * 10 + digC m2 < 1 ∨ 12 < digC m1 * 10 + digC m2) := by omega
  have nhr : ¬(24 ≤ digC hc1 * 10 + digC hc2) := by omega
  have nmi : ¬(60 ≤ digC mi1 * 10 + digC mi2) := by omega
  have nsc : ¬(60 ≤ digC sc1 * 10 + digC sc2) := by omega
  have ndy : ¬(digC d1 * 10 + digC d2 < 1 ∨
      daysIn (digC m1 * 10 + digC m2)
        (digC y1 * 1000 + digC y2 * 100 + digC y3 * 10 + digC y4) <
        digC d1 * 10 + digC d2) := by omega
  unfold parseTimeChars
  simp only [epy, eg1, eg2, eg3, eg4, eg5, hfr2, nmo, nhr, nmi, nsc, ndy, if_false,
    if_true, reduceCtorEq]
  exact h

theorem parseTimeChars_eq_spec (l : List Char) : parseTimeChars l = specTimeChars l := by
  rcases hp : parseTimeChars l with _ | t
  · rcases hs : specTimeChars l with _ | u
    · rfl
    · have h2 := specTimeChars_some_imp hs
      rw [hp] at h2
      exact Option.noConfusion h2
  · exact (parseTimeChars_some_imp hp).symm

/-- C4 counterexample: the input `"20060102T150405.5"` does not match the
fixed pattern `YYYYMMDDThhmmss` (it carries a fractional-second suffix), yet
the time parser accepts it, refuting "succeeds exactly when the string
matches the fixed pattern". -/
theorem parseTime_accepts_fractional_second :
    (parseTime "20060102T150405.5").isSome = true ∧
    claimPattern "20060102T150405.5" = false := by
  exact ⟨by decide, by decide⟩

/-- C4 (amended): the time parser succeeds exactly on the fixed pattern
`YYYYMMDDThhmmss` with in-range components, optionally followed by a
fractional-second suffix (`'.'` or `','` and one or more digits, of which at
most nine are kept), and it returns the timestamp spelled by the string's
own digits — no timezone conversion; every other input is a parse error. -/
theorem parseTime_eq_specTime (s : String) : parseTime s = specTime s :=
  parseTimeChars_eq_spec s.data

theorem digC_le_nine (c : Char) (h : isDigitC c = true) : digC c ≤ 9 := by
  simp only [isDigitC, Bool.and_eq_true, decide_eq_true_eq] at h
  have h1 : (48 : Nat) ≤ c.toNat := h.1
  have h2 : c.toNat ≤ 57 := h.2
  have h3 : digC c = c.toNat - 48 := rfl
  omega

theorem dChar_lt_iff (a b : Nat) (ha : a ≤ 9) (hb : b ≤ 9) :
    (charLtB (dChar a) (dChar b) = true) ↔ a < b := by
  interval_cases a <;> interval_cases b <;> decide

theorem dChar_inj_iff (a b : Nat) (ha : a ≤ 9) (hb : b ≤ 9) :
    dChar a = dChar b ↔ a = b := by
  interval_cases a <;> interval_cases b <;> decide

theorem pad2_spec (n : Nat) (h : n ≤ 99) : pad2 n = [dChar (n / 10), dChar (n % 10)] := by
  rw [pad2, if_pos (by omega)]

theorem pad4_spec (n : Nat) (h : n ≤ 9999) :
    pad4 n = [dChar (n / 1000), dChar (n / 100 % 10), dChar (n / 10 % 10), dChar (n % 10)] := by
  rw [pad4, if_pos (by omega)]

theorem daysIn_le_31 (m y : Nat) : daysIn m y ≤ 31 := by
  unfold daysIn
  split
  · split <;> omega
  · split <;> omega

theorem twoDigitLexIff (x y : Nat) (X : Prop) :
    (x / 10 < y / 10 ∨ (x / 10 = y / 10 ∧ (x % 10 < y % 10 ∨ (x % 10 = y % 10 ∧ X)))) ↔
      (x < y ∨ (x = y ∧ X)) := by
  constructor
  · rintro (h | ⟨h1, h | ⟨h2, hX⟩⟩)
    · left; omega
    · left; omega
    · right; exact ⟨by omega, hX⟩
  · rintro (h | ⟨rfl, hX⟩)
    · by_cases hd : x / 10 < y / 10
      · exact Or.inl hd
      · exact Or.inr ⟨by omega, Or.inl (by omega)⟩
    · exact Or.inr ⟨rfl, Or.inr ⟨rfl, hX⟩⟩

theorem fourDigitLexIff (x y : Nat) (X : Prop) :
    (x / 1000 < y / 1000 ∨ (x / 1000 = y / 1000 ∧
      (x / 100 % 10 < y / 100 % 10 ∨ (x / 100 % 10 = y / 100 % 10 ∧
        (x / 10 % 10 < y / 10 % 10 ∨ (x / 10 % 10 = y / 10 % 10 ∧
          (x % 10 < y % 10 ∨ (x % 10 = y % 10 ∧ X)))))))) ↔
      (x < y ∨ (x = y ∧ X)) := by
  have k1 : x / 10 / 10 = x / 100 := by rw [Nat.div_div_eq_div_mul]
  have k2 : x / 100 / 10 = x / 1000 := by rw [Nat.div_div_eq_div_mul]
  have k3 : y / 10 / 10 = y / 100 := by rw [Nat.div_div_eq_div_mul]
  have k4 : y / 100 / 10 = y / 1000 := by rw [Nat.div_div_eq_div_mul]
  constructor
  · rintro (h | ⟨h1, h | ⟨h2, h | ⟨h3, h | ⟨h4, hX⟩⟩⟩⟩)
    · left; omega
    · left; omega
    · left; omega
    · left; omega
    · right; exact ⟨by omega, hX⟩
  · rintro (h | ⟨rfl, hX⟩)
    · by_cases q3 : x / 1000 < y / 1000
      · exact Or.inl q3
      by_cases q3e : x / 1000 = y / 1000
      · by_cases q2 : x / 100 % 10 < y / 100 % 10
        · exact Or.inr ⟨q3e, Or.inl q2⟩
        by_cases q2e : x / 100 % 10 = y / 100 % 10
        · by_cases q1 : x / 10 % 10 < y / 10 % 10
          · exact Or.inr ⟨q3e, Or.inr ⟨q2e, Or.inl q1⟩⟩
          by_cases q1e : x / 10 % 10 = y / 10 % 10
          · exact Or.inr ⟨q3e, Or.inr ⟨q2e, Or.inr ⟨q1e, Or.inl (by omega)⟩⟩⟩
          · exact absurd h (by omega)
        · exact absurd h (by omega)
      · exact absurd h (by omega)
    · exact Or.inr ⟨rfl, Or.inr ⟨rfl, Or.inr ⟨rfl, Or.inr ⟨rfl, hX⟩⟩⟩⟩

theorem fmtDate_lt_iff (t u : GoTime)
    (ht1 : t.year ≤ 9999) (ht2 : t.month ≤ 99) (ht3 : t.day ≤ 99)
    (hu1 : u.year ≤ 9999) (hu2 : u.month ≤ 99) (hu3 : u.day ≤ 99) :
    (strLtB (fmtDate t).data (fmtDate u).data = true) ↔
      (t.year < u.year ∨ (t.year = u.year ∧
        (t.month < u.month ∨ (t.month = u.month ∧ t.day < u.day)))) := by
  have e1 : (fmtDate t).data = pad4 t.year ++ '/' :: pad2 t.month ++ '/' :: pad2 t.day := rfl
  have e2 : (fmtDate u).data = pad4 u.year ++ '/' :: pad2 u.month ++ '/' :: pad2 u.day := rfl
  rw [e1, e2, pad4_spec _ ht1, pad4_spec _ hu1, pad2_spec _ ht2, pad2_spec _ hu2,
    pad2_spec _ ht3, pad2_spec _ hu3]
  simp only [List.cons_append, List.nil_append, strLtB,
    Bool.or_eq_true, Bool.and_eq_true, beq_iff_eq,
    show charLtB '/' '/' = false from by decide, Bool.false_eq_true, false_or,
    eq_self_iff_true, true_and, and_true]
  rw [dChar_lt_iff _ _ (by omega) (by omega), dChar_lt_iff _ _ (by omega) (by omega),
    dChar_lt_iff _ _ (by omega) (by omega), dChar_lt_iff _ _ (by omega) (by omega),
    dChar_lt_iff _ _ (by omega) (by omega), dChar_lt_iff _ _ (by omega) (by omega),
    dChar_lt_iff _ _ (by omega) (by omega), dChar_lt_iff _ _ (by omega) (by omega),
    dChar_inj_iff _ _ (by omega) (by omega), dChar_inj_iff _ _ (by omega) (by omega),
    dChar_inj_iff _ _ (by omega) (by omega), dChar_inj_iff _ _ (by omega) (by omega),
    dChar_inj_iff _ _ (by omega) (by omega), dChar_inj_iff _ _ (by omega) (by omega),
    dChar_inj_iff _ _ (by omega) (by omega), dChar_inj_iff _ _ (by omega) (by omega)]
  rw [fourDigitLexIff, twoDigitLexIff, twoDigitLexIff]
  simp

theorem fmtHM_lt_iff (t u : GoTime)
    (ht1 : t.hour ≤ 99) (ht2 : t.min ≤ 99) (hu1 : u.hour ≤ 99) (hu2 : u.min ≤ 99) :
    (strLtB (fmtHM t).data (fmtHM u).data = true) ↔
      (t.hour < u.hour ∨ (t.hour = u.hour ∧ t.min < u.min)) := by
  have e1 : (fmtHM t).data = pad2 t.hour ++ ':' :: pad2 t.min := rfl
  have e2 : (fmtHM u).data = pad2 u.hour ++ ':' :: pad2 u.min := rfl
  rw [e1, e2, pad2_spec _ ht1, pad2_spec _ hu1, pad2_spec _ ht2, pad2_spec _ hu2]
  simp only [List.cons_append, List.nil_append, strLtB,
    Bool.or_eq_true, Bool.and_eq_true, beq_iff_eq,
    show charLtB ':' ':' = false from by decide, Bool.false_eq_true, false_or,
    eq_self_iff_true, true_and, and_true]
  rw [dChar_lt_iff _ _ (by omega) (by omega), dChar_lt_iff _ _ (by omega) (by omega),
    dChar_lt_iff _ _ (by omega) (by omega), dChar_lt_iff _ _ (by omega) (by omega),
    dChar_inj_iff _ _ (by omega) (by omega), dChar_inj_iff _ _ (by omega) (by omega),
    dChar_inj_iff _ _ (by omega) (by omega), dChar_inj_iff _ _ (by omega) (by omega)]
  rw [twoDigitLexIff, twoDigitLexIff]
  simp

theorem fmtDate_eq_iff (t u : GoTime)
    (ht1 : t.year ≤ 9999) (ht2 : t.month ≤ 99) (ht3 : t.day ≤ 99)
    (hu1 : u.year ≤ 9999) (hu2 : u.month ≤ 99) (hu3 : u.day ≤ 99) :
    fmtDate t = fmtDate u ↔ (t.year = u.year ∧ t.month = u.month ∧ t.day = u.day) := by
  rw [fmtDate, fmtDate, pad4_spec _ ht1, pad4_spec _ hu1, pad2_spec _ ht2, pad2_spec _ hu2,
    pad2_spec _ ht3, pad2_spec _ hu3]
  simp only [String.ext_iff, List.cons_append, List.nil_append, List.cons.injEq,
    eq_self_iff_true, true_and, and_true]
  rw [dChar_inj_iff _ _ (by omega) (by omega), dChar_inj_iff _ _ (by omega) (by omega),
    dChar_inj_iff _ _ (by omega) (by omega), dChar_inj_iff _ _ (by omega) (by omega),
    dChar_inj_iff _ _ (by omega) (by omega), dChar_inj_iff _ _ (by omega) (by omega),
    dChar_inj_iff _ _ (by omega) (by omega), dChar_inj_iff _ _ (by omega) (by omega)]
  have k1 : t.year / 10 / 10 = t.year / 100 := by rw [Nat.div_div_eq_div_mul]
  have k2 : t.year / 100 / 10 = t.year / 1000 := by rw [Nat.div_div_eq_div_mul]
  have k3 : u.year / 10 / 10 = u.year / 100 := by rw [Nat.div_div_eq_div_mul]
  have k4 : u.year / 100 / 10 = u.year / 1000 := by rw [Nat.div_div_eq_div_mul]
  omega

theorem fmtHM_eq_iff (t u : GoTime)
    (ht1 : t.hour ≤ 99) (ht2 : t.min ≤ 99) (hu1 : u.hour ≤ 99) (hu2 : u.min ≤ 99) :
    fmtHM t = fmtHM u ↔ (t.hour = u.hour ∧ t.min = u.min) := by
  rw [fmtHM, fmtHM, pad2_spec _ ht1, pad2_spec _ hu1, pad2_spec _ ht2, pad2_spec _ hu2]
  simp only [String.ext_iff, List.cons_append, List.nil_append, List.cons.injEq,
    eq_self_iff_true, true_and, and_true]
  rw [dChar_inj_iff _ _ (by omega) (by omega), dChar_inj_iff _ _ (by omega) (by omega),
    dChar_inj_iff _ _ (by omega) (by omega), dChar_inj_iff _ _ (by omega) (by omega)]
  omega

theorem specTimeChars_ranges {l : List Char} {t : GoTime} (h : specTimeChars l = some t) :
    t.year ≤ 9999 ∧ 1 ≤ t.month ∧ t.month ≤ 12 ∧ 1 ≤ t.day ∧ t.day ≤ 31 ∧
      t.hour ≤ 23 ∧ t.min ≤ 59 ∧ t.sec ≤ 59 := by
  unfold specTimeChars at h
  split at h
  swap
  · exact Option.noConfusion h
  rename_i y1 y2 y3 y4 m1 m2 d1 d2 tc hc1 hc2 mi1 mi2 sc1 sc2 rest
  split at h
  swap
  · exact Option.noConfusion h
  rename_i hcond
  obtain ⟨hq1, hq2, hq3, hq4, hm1, hm2, hd1, hd2, htc, hh1, hh2, hmi1, hmi2, hs1, hs2,
    hmo1, hmo2, hdy1, hdy2, hhr, hmin, hsec2, hfrok⟩ := hcond
  rw [Option.some.injEq] at h
  subst h
  dsimp only
  have b1 := digC_le_nine y1 hq1
  have b2 := digC_le_nine y2 hq2
  have b3 := digC_le_nine y3 hq3
  have b4 := digC_le_nine y4 hq4
  have bd := daysIn_le_31 (digC m1 * 10 + digC m2)
    (digC y1 * 1000 + digC y2 * 100 + digC y3 * 10 + digC y4)
  refine ⟨by omega, by omega, by omega, by omega, by omega, by omega, by omega, by omega⟩

theorem parseTime_ranges {s : String} {t : GoTime} (h : parseTime s = some t) :
    t.year ≤ 9999 ∧ 1 ≤ t.month ∧ t.month ≤ 12 ∧ 1 ≤ t.day ∧ t.day ≤ 31 ∧
      t.hour ≤ 23 ∧ t.min ≤ 59 ∧ t.sec ≤ 59 := by
  rw [parseTime, parseTimeChars_eq_spec] at h
  exact specTimeChars_ranges h

/-- C6: for timestamps accepted by the time parser, comparing the formatted
`YYYY/MM/DD` date strings lexicographically and, on equal dates, the
formatted `HH:MM` start-time strings lexicographically agrees with the
chronological order of the timestamps: a strict key order implies strict
chronological order, and chronological order implies the (non-strict) key
order — the fixed-width zero-padded formatting is an order homomorphism
(seconds and sub-seconds are dropped by the format, so equal keys can cover
distinct instants). -/
theorem format_order_homomorphism (s1 s2 : String) (t u : GoTime)
    (h1 : parseTime s1 = some t) (h2 : parseTime s2 = some u) :
    (keyLt t u → chronLt t u) ∧ (chronLe t u → keyLe t u) := by
  obtain ⟨ta, tb, tc2, td, te, tf, tg, th⟩ := parseTime_ranges h1
  obtain ⟨ua, ub, uc, ud, ue, uf, ug, uh⟩ := parseTime_ranges h2
  have hdlt := fmtDate_lt_iff t u ta (by omega) (by omega) ua (by omega) (by omega)
  have hdeq := fmtDate_eq_iff t u ta (by omega) (by omega) ua (by omega) (by omega)
  have hhlt := fmtHM_lt_iff t u (by omega) (by omega) (by omega) (by omega)
  have hheq := fmtHM_eq_iff t u (by omega) (by omega) (by omega) (by omega)
  constructor
  · intro hk
    unfold keyLt at hk
    rw [hdlt, hdeq, hhlt] at hk
    unfold chronLt
    omega
  · intro hc
    unfold keyLe keyLt
    rw [hdlt, hdeq, hhlt, hheq]
    rcases hc with hlt | rfl
    · unfold chronLt at hlt
      omega
    · omega

theorem format_order_homomorphism_witness :
    (keyLt ⟨2024, 1, 5, 9, 0, 0, 0⟩ ⟨2024, 1, 5, 12, 0, 0, 0⟩ →
      chronLt ⟨2024, 1, 5, 9, 0, 0, 0⟩ ⟨2024, 1, 5, 12, 0, 0, 0⟩) ∧
    (chronLe ⟨2024, 1, 5, 9, 0, 0, 0⟩ ⟨2024, 1, 5, 12, 0, 0, 0⟩ →
      keyLe ⟨2024, 1, 5, 9, 0, 0, 0⟩ ⟨2024, 1, 5, 12, 0, 0, 0⟩) :=
  format_order_homomorphism "20240105T090000" "20240105T120000" _ _ (by decide) (by decide)
